import Mathlib

/-
Verification of the typed-value core of the oplus repository:
the field descriptor module (src/oplus/idd/field_descriptor.py) and the
calendar and text-source helpers (src/oplus/util.py).

Python machinery is modelled explicitly: exceptions become an error type
carried by Except, the filesystem is a predicate parameter, and the
datetime library is embedded at minute precision (all the source uses).
-/

namespace Oplus

/-- Python exception kinds raised by the embedded code. -/
inductive PyErr
| valueError
| runtimeError
| indexError
| assertionError
| keyError
deriving DecidableEq

/-! ## Character-level models of the Python text primitives -/

/-- Codepoints treated as whitespace by Python's str.strip and by the regex
pattern of one or more whitespace characters used in cleanup_and_check_raw_value. -/
def pySpaceCodes : List Nat :=
  [9, 10, 11, 12, 13, 28, 29, 30, 31, 32, 133, 160, 5760,
   8192, 8193, 8194, 8195, 8196, 8197, 8198, 8199, 8200, 8201, 8202,
   8232, 8233, 8239, 8287, 12288]

def isPySpace (c : Char) : Bool := pySpaceCodes.contains c.toNat

/-- Models Python str.lower on one character (exact on the ASCII range; every
character reaching it in this development is ASCII by then). -/
def pyLowerChar (c : Char) : Char :=
  if 65 ≤ c.toNat ∧ c.toNat ≤ 90 then Char.ofNat (c.toNat + 32) else c

def pyLowerList (l : List Char) : List Char := l.map pyLowerChar

/-- Models Python str.lower. -/
def pyLowerStr (s : String) : String := ⟨pyLowerList s.data⟩

/-- Models str.strip with no argument: drop Python whitespace from both ends. -/
def pyStripList (l : List Char) : List Char :=
  ((l.dropWhile isPySpace).reverse.dropWhile isPySpace).reverse

/-- Models re.sub replacing every maximal run of whitespace by a single ASCII
space, as done by the spaces_pattern substitution in the source. -/
def collapseList : List Char → List Char
  | [] => []
  | [c] => if isPySpace c then [' '] else [c]
  | c :: d :: rest =>
      if isPySpace c && isPySpace d then collapseList (d :: rest)
      else (if isPySpace c then ' ' else c) :: collapseList (d :: rest)

/-- Normal whitespace shape of an interior-normalized character list: every
whitespace character is the single ASCII space, never followed by another
whitespace character, and the last character is not whitespace. Used to reason
about the outputs of the strip-and-collapse normalization. -/
def normTail : List Char → Bool
  | [] => true
  | [c] => !isPySpace c
  | c :: d :: rest =>
      (if isPySpace c then c == ' ' && !isPySpace d else true) && normTail (d :: rest)

/-- Modelled from the spec: the ASCII approximation applied by the external
unidecode dependency to one non-ASCII character ("transliterate to the nearest
ASCII representation: diacritics stripped, non-Latin scripts approximated").
The table is a representative fragment; every approximation is a nonempty
non-space ASCII string. -/
def asciiApprox (c : Char) : List Char :=
  if c = 'é' ∨ c = 'è' ∨ c = 'ê' ∨ c = 'ë' then [ 'e' ]
  else if c = 'à' ∨ c = 'â' ∨ c = 'ä' then [ 'a' ]
  else if c = 'ç' then [ 'c' ]
  else if c = 'ô' ∨ c = 'ö' then [ 'o' ]
  else if c = 'û' ∨ c = 'ù' ∨ c = 'ü' then [ 'u' ]
  else [ '?' ]

/-- Modelled from the spec: unidecode on one character; the library is the
identity on ASCII input. -/
def unidecodeChar (c : Char) : List Char :=
  if c.toNat < 128 then [c] else asciiApprox c

def unidecodeList (l : List Char) : List Char := (l.map unidecodeChar).flatten

def isAsciiDigit (c : Char) : Bool := 48 ≤ c.toNat && c.toNat ≤ 57

def digitsToNat (l : List Char) : Nat := l.foldl (fun acc c => 10 * acc + (c.toNat - 48)) 0

/-- Models Python int() on a plain decimal string: an optional sign followed by
one or more ASCII digits (the inputs it receives here are already stripped). -/
def pyIntParse (s : String) : Option Int :=
  let core : List Char → Option Int := fun l =>
    if !l.isEmpty && l.all isAsciiDigit then some (Int.ofNat (digitsToNat l)) else none
  match s.data with
  | '+' :: rest => core rest
  | '-' :: rest => (core rest).map (fun n => -n)
  | l => core l

def expPartOk (l : List Char) : Bool :=
  let l2 := match l with
    | c :: rest => if c = '+' ∨ c = '-' then rest else l
    | [] => l
  !l2.isEmpty && l2.all isAsciiDigit

def mantissaOk (l : List Char) : Bool × List Char :=
  let ds := l.takeWhile isAsciiDigit
  let rest := l.dropWhile isAsciiDigit
  match rest with
  | '.' :: r2 =>
      (!ds.isEmpty || !(r2.takeWhile isAsciiDigit).isEmpty, r2.dropWhile isAsciiDigit)
  | _ => (!ds.isEmpty, rest)

/-- Models Python float() acceptance: optionally signed finite decimal literals
with optional exponent, and the special spellings inf, infinity and nan. -/
def pyFloatOk (s : String) : Bool :=
  let l := match s.data with
    | c :: rest => if c = '+' ∨ c = '-' then rest else s.data
    | [] => s.data
  if pyLowerList l = "inf".data ∨ pyLowerList l = "infinity".data ∨ pyLowerList l = "nan".data
  then true
  else
    let p := mantissaOk l
    if !p.1 then false
    else match p.2 with
      | [] => true
      | 'e' :: r3 => expPartOk r3
      | 'E' :: r3 => expPartOk r3
      | _ => false

/-! ## Field descriptor module (src/oplus/idd/field_descriptor.py) -/

/-- Python values flowing through the parsing pipeline: None, str, int, float.
A float keeps its source text; no claim consults the numeric value of a float. -/
inductive PyVal
| pynone
| pystr (s : String)
| pyint (n : Int)
| pyfloat (s : String)
deriving DecidableEq

/-- Embeds to_num: the two sentinel tokens pass through as strings, otherwise
int() is attempted, then float(); a double failure raises ValueError. -/
def to_num (raw_value : String) : Except PyErr PyVal :=
  if raw_value = "autocalculate" ∨ raw_value = "autosize" then .ok (.pystr raw_value)
  else match pyIntParse raw_value with
    | some n => .ok (.pyint n)
    | none => if pyFloatOk raw_value then .ok (.pyfloat raw_value) else .error .valueError

/-- Embeds FieldDescriptor: the basic type code (the string A or N), the
optional name, and the tag mapping in insertion order (a Python dict from tag
name to list of string values). -/
structure FieldDescriptor where
  basic_type : String
  name : Option String
  tags_d : List (String × List String)
deriving DecidableEq

/-- Association-list lookup modelling Python dict access on the tag mapping. -/
def lookupTag : List (String × List String) → String → Option (List String)
  | [], _ => none
  | (k, v) :: rest, ref => if k = ref then some v else lookupTag rest ref

/-- Embeds FieldDescriptor.__init__: basic type codes other than A and N are
rejected with ValueError; the tag mapping starts empty. -/
def FieldDescriptor.make (field_basic_type : String) (name : Option String) :
    Except PyErr FieldDescriptor :=
  if field_basic_type = "A" ∨ field_basic_type = "N" then .ok ⟨field_basic_type, name, []⟩
  else .error .valueError

/-- Embeds FieldDescriptor.has_tag. -/
def FieldDescriptor.has_tag (fd : FieldDescriptor) (ref : String) : Bool :=
  (lookupTag fd.tags_d ref).isSome

def appendToTag : List (String × List String) → String → String → List (String × List String)
  | [], _, _ => []
  | (k, vs) :: rest, ref, v =>
      if k = ref then (k, vs ++ [v]) :: rest else (k, vs) :: appendToTag rest ref v

/-- Embeds FieldDescriptor.add_tag: create an empty value list for a new tag
name (appended at the end, as dict insertion order does), then append the
value when one is given. -/
def FieldDescriptor.add_tag (fd : FieldDescriptor) (ref : String) (value : Option String) :
    FieldDescriptor :=
  let tags1 := if (lookupTag fd.tags_d ref).isSome then fd.tags_d else fd.tags_d ++ [(ref, [])]
  match value with
  | none => { fd with tags_d := tags1 }
  | some v => { fd with tags_d := appendToTag tags1 ref v }

def removeKey : List (String × List String) → String → List (String × List String)
  | [], _ => []
  | (k, vs) :: rest, ref => if k = ref then rest else (k, vs) :: removeKey rest ref

/-- Embeds FieldDescriptor.remove_tag: raise mode propagates KeyError on a
missing tag, ignore mode is silent, any other mode is ValueError. -/
def FieldDescriptor.remove_tag (fd : FieldDescriptor) (ref : String) (errors : String) :
    Except PyErr FieldDescriptor :=
  if errors = "raise" then
    if (lookupTag fd.tags_d ref).isSome then .ok { fd with tags_d := removeKey fd.tags_d ref }
    else .error .keyError
  else if errors = "ignore" then .ok { fd with tags_d := removeKey fd.tags_d ref }
  else .error .valueError

/-- Embeds FieldDescriptor.cleanup_and_check_raw_value. None becomes the empty
string; then strip and collapse whitespace, transliterate to ASCII, lower-case
unless a retaincase tag is present; the assert on length over 100 becomes
AssertionError, and for numeric descriptors a failed to_num propagates. -/
def FieldDescriptor.cleanup_and_check_raw_value (fd : FieldDescriptor)
    (unsafe_raw_value : Option String) : Except PyErr String :=
  let s0 := unsafe_raw_value.getD ""
  let r1 : List Char := collapseList (pyStripList s0.data)
  let r2 : List Char := unidecodeList r1
  let r3 : List Char := if fd.has_tag "retaincase" then r2 else pyLowerList r2
  let raw_value : String := ⟨r3⟩
  if raw_value.length > 100 then .error .assertionError
  else if raw_value ≠ "" ∧ fd.basic_type = "N" then
    match to_num raw_value with
    | .ok _ => .ok raw_value
    | .error e => .error e
  else .ok raw_value

/-- Embeds FieldDescriptor.basic_parse. -/
def FieldDescriptor.basic_parse (fd : FieldDescriptor) (raw_value : PyVal) : Except PyErr PyVal :=
  if raw_value = .pynone ∨ raw_value = .pystr "" then .ok .pynone
  else if fd.basic_type = "A" then .ok raw_value
  else match raw_value with
    | .pystr s => to_num s
    | .pyint n => .ok (.pyint n)
    | .pyfloat f => .ok (.pyfloat f)
    | .pynone => .ok .pynone

/-- The validate-then-parse pipeline: cleanup_and_check_raw_value followed by
basic_parse on the cleaned string. -/
def FieldDescriptor.cleanup_then_parse (fd : FieldDescriptor) (s : String) : Except PyErr PyVal :=
  match fd.cleanup_and_check_raw_value (some s) with
  | .error e => .error e
  | .ok r => fd.basic_parse (.pystr r)

/-- Embeds the first computation of FieldDescriptor.detailed_type (the source
memoizes this result on first access). An empty value list under the type tag
makes the subscript at index 0 raise IndexError. -/
def FieldDescriptor.detailed_type (fd : FieldDescriptor) : Except PyErr String :=
  if fd.has_tag "reference" then .ok "reference"
  else if fd.has_tag "type" then
    match lookupTag fd.tags_d "type" with
    | some (v :: _) => .ok (pyLowerStr v)
    | some [] => .error .indexError
    | none => .error .keyError
  else if fd.has_tag "key" then .ok "choice"
  else if fd.has_tag "object-list" then .ok "object-list"
  else if fd.has_tag "external-list" then .ok "external-list"
  else if fd.basic_type = "A" then .ok "alpha"
  else if fd.basic_type = "N" then .ok "real"
  else .error .valueError

/-- Lexicographic comparison of char lists by codepoint, modelling Python
string comparison as used by sorted on the dict items (tag keys are unique in
a dict, so the key decides). -/
def charListLe : List Char → List Char → Bool
  | [], _ => true
  | _ :: _, [] => false
  | c :: cs, d :: ds => if c.toNat < d.toNat then true
      else if d.toNat < c.toNat then false
      else charListLe cs ds

def itemLe (a b : String × List String) : Bool := charListLe a.1.data b.1.data

def insertItem (x : String × List String) :
    List (String × List String) → List (String × List String)
  | [] => [x]
  | y :: rest => if itemLe x y then x :: y :: rest else y :: insertItem x rest

/-- Models Python sorted on the items of the tag dict. -/
def sortItems : List (String × List String) → List (String × List String)
  | [] => []
  | x :: rest => insertItem x (sortItems rest)

/-- Embeds FieldDescriptor.__eq__ exactly as written in the source, including
its comparison of the sorted items of self with the sorted items of self. -/
def FieldDescriptor.eqPy (fd other : FieldDescriptor) : Bool :=
  if fd.name ≠ other.name then false
  else if fd.basic_type ≠ other.basic_type then false
  else if fd.tags_d.length ≠ other.tags_d.length ∨ sortItems fd.tags_d ≠ sortItems fd.tags_d
  then false
  else true

/-- Embeds FieldDescriptor.copy: when deep is true the source computes
copy.copy(self) but falls off the end of the function, returning None;
otherwise it returns copy.deepcopy(self), modelled as the same value (a deep
copy is value-equal to the original and shares no mutable state with it). -/
def FieldDescriptor.copyPy (fd : FieldDescriptor) (deep : Bool) : Option FieldDescriptor :=
  if deep then none else some fd

/-! ## Calendar conversion (src/oplus/util.py) -/

/-- Embeds calendar.isleap. -/
def isleap (year : Int) : Bool := year % 4 == 0 && (year % 100 != 0 || year % 400 == 0)

def daysInMonth (year month : Int) : Int :=
  if month = 2 then (if isleap year then 29 else 28)
  else if month = 4 ∨ month = 6 ∨ month = 9 ∨ month = 11 then 30
  else 31

/-- Conventional calendar timestamp, modelling Python datetime.datetime at
minute precision (all the source uses). -/
structure Datetime where
  year : Int
  month : Int
  day : Int
  hour : Int
  minute : Int
deriving DecidableEq

/-- Models the validation done by the datetime.datetime constructor. -/
def mkDatetime (year month day hour minute : Int) : Except PyErr Datetime :=
  if 1 ≤ year ∧ year ≤ 9999 ∧ 1 ≤ month ∧ month ≤ 12 ∧ 1 ≤ day ∧ day ≤ daysInMonth year month
      ∧ 0 ≤ hour ∧ hour ≤ 23 ∧ 0 ≤ minute ∧ minute ≤ 59
  then .ok ⟨year, month, day, hour, minute⟩ else .error .valueError

/-- Models adding timedelta(hours=1) to a valid timestamp. -/
def succHour (x : Datetime) : Datetime :=
  if x.hour < 23 then { x with hour := x.hour + 1 }
  else if x.day < daysInMonth x.year x.month then { x with hour := 0, day := x.day + 1 }
  else if x.month < 12 then { x with hour := 0, day := 1, month := x.month + 1 }
  else { x with hour := 0, day := 1, month := 1, year := x.year + 1 }

/-- Models subtracting timedelta(hours=1) from a valid timestamp. -/
def predHour (x : Datetime) : Datetime :=
  if 0 < x.hour then { x with hour := x.hour - 1 }
  else if 1 < x.day then { x with hour := 23, day := x.day - 1 }
  else if 1 < x.month then
    { x with hour := 23, day := daysInMonth x.year (x.month - 1), month := x.month - 1 }
  else { x with hour := 23, day := 31, month := 12, year := x.year - 1 }

/-- Models datetime.replace for the year field (validated like the constructor). -/
def replaceYear (x : Datetime) (year : Int) : Except PyErr Datetime :=
  mkDatetime year x.month x.day x.hour x.minute

/-- Models the except ValueError handler of EPlusDt.to_datetime: a ValueError
on February 29 is re-raised as the distinguished leap-year RuntimeError, any
other outcome passes through. -/
def wrapLeapErr (month day : Int) (r : Except PyErr Datetime) : Except PyErr Datetime :=
  match r with
  | .ok d => .ok d
  | .error e => if month = 2 ∧ day = 29 then .error .runtimeError else .error e

/-- Embeds EPlusDt.to_datetime: minute 60 becomes minute 0 one hour later, the
eplus hour is shifted down by one, the year of the result is forced back to the
requested year, and failures go through the leap-year handler. -/
def to_datetime (year month day eplus_hour eplus_minute : Int) : Except PyErr Datetime :=
  wrapLeapErr month day
    ((mkDatetime year month day (eplus_hour - 1)
        (if eplus_minute = 60 then 0 else eplus_minute)).bind
      (fun base => replaceYear (if eplus_minute = 60 then succHour base else base) year))

/-- Embeds EPlusDt: the stored standard timestamp (projected on the reference
leap year 2000) and the stored eplus value tuple (month, day, hour, minute). -/
structure EPlusDt where
  standard_dt : Datetime
  value : Int × Int × Int × Int
deriving DecidableEq

/-- Embeds EPlusDt.__init__ (a constructor failure propagates). -/
def EPlusDt.init (month day out_hour out_minute : Int) : Except PyErr EPlusDt :=
  (to_datetime 2000 month day out_hour out_minute).map (fun std =>
    let pair : Datetime × Int :=
      if std.minute = 0 then (predHour std, 60) else (std, std.minute)
    ⟨std, (pair.1.month, pair.1.day, pair.1.hour + 1, pair.2)⟩)

/-- Embeds EPlusDt.from_datetime. -/
def EPlusDt.from_datetime (datetime : Datetime) : Except PyErr EPlusDt :=
  let pair : Datetime × Int :=
    if datetime.minute = 0 then (predHour datetime, 60) else (datetime, datetime.minute)
  EPlusDt.init pair.1.month pair.1.day (pair.1.hour + 1) pair.2

def EPlusDt.month (e : EPlusDt) : Int := e.value.1

def EPlusDt.day (e : EPlusDt) : Int := e.value.2.1

def EPlusDt.hour (e : EPlusDt) : Int := e.value.2.2.1

def EPlusDt.minute (e : EPlusDt) : Int := e.value.2.2.2

/-- Embeds the EPlusDt.datetime method: reproject the stored value onto the
given year, degrading the stored (2, 29, 24, 60) to day 28 for non-leap years. -/
def EPlusDt.datetime (e : EPlusDt) (year : Int) : Except PyErr Datetime :=
  let day : Int := if isleap year = false ∧ e.value = (2, 29, 24, 60) then 28 else e.day
  to_datetime year e.month day e.hour e.minute

/-- Models Python datetime ordering: chronological order, which on valid
normalized timestamps is field-lexicographic order. -/
def dtLtB (a b : Datetime) : Bool :=
  if a.year < b.year then true else if b.year < a.year then false
  else if a.month < b.month then true else if b.month < a.month then false
  else if a.day < b.day then true else if b.day < a.day then false
  else if a.hour < b.hour then true else if b.hour < a.hour then false
  else decide (a.minute < b.minute)

def dtEqB (a b : Datetime) : Bool := decide (a = b)

def dtLeB (a b : Datetime) : Bool := dtLtB a b || dtEqB a b

/-- Embeds EPlusDt.__lt__. -/
def EPlusDt.ltB (a b : EPlusDt) : Bool := dtLtB a.standard_dt b.standard_dt

/-- Embeds EPlusDt.__le__. -/
def EPlusDt.leB (a b : EPlusDt) : Bool := dtLeB a.standard_dt b.standard_dt

/-- Embeds EPlusDt.__eq__. -/
def EPlusDt.eqB (a b : EPlusDt) : Bool := dtEqB a.standard_dt b.standard_dt

/-- Embeds EPlusDt.__ne__. -/
def EPlusDt.neB (a b : EPlusDt) : Bool := !dtEqB a.standard_dt b.standard_dt

/-- Embeds EPlusDt.__gt__. -/
def EPlusDt.gtB (a b : EPlusDt) : Bool := dtLtB b.standard_dt a.standard_dt

/-- Embeds EPlusDt.__ge__. -/
def EPlusDt.geB (a b : EPlusDt) : Bool := dtLeB b.standard_dt a.standard_dt

/-! ## Text-source abstraction (get_string_buffer in src/oplus/util.py) -/

/-- Result of get_string_buffer for a string input: an opened file handle or an
in-memory string buffer over the literal content. -/
inductive StrBuffer
| fileHandle (path : String) (encoding : String)
| stringBuf (content : String)
deriving DecidableEq

/-- Models the Python negative slice taking the last k characters of s. -/
def lastChars (s : String) (k : Nat) : String := ⟨s.data.drop (s.data.length - k)⟩

/-- Embeds get_string_buffer restricted to string input (the branch the claims
are about); the filesystem is abstracted by the isfile predicate standing for
os.path.isfile. A string with the dotted extension suffix must name an
existing file or the assert fires; any other string becomes a StringIO. -/
def get_string_buffer (path_or_content : String) (expected_extension : String)
    (encoding : String) (isfile : String → Bool) :
    Except PyErr (StrBuffer × Option String) :=
  if lastChars path_or_content (expected_extension.length + 1) = "." ++ expected_extension then
    if isfile path_or_content then
      .ok (.fileHandle path_or_content encoding, some path_or_content)
    else .error .assertionError
  else .ok (.stringBuf path_or_content, none)

end Oplus

namespace Oplus

/-! ## Theorems for the claims -/

/-- Claim C1, counterexample: the claim asserts EPlusDt(1,1,1,1) < EPlusDt(12,31,24,60),
but the constructor projects 12-31-24-60 onto Jan 1 00:00 of the reference year
(the source forces the year back after the one-hour shift), so the comparison
is false. -/
theorem C1_claim_counterexample :
    EPlusDt.init 1 1 1 1 = .ok ⟨⟨2000, 1, 1, 0, 1⟩, (1, 1, 1, 1)⟩
    ∧ EPlusDt.init 12 31 24 60 = .ok ⟨⟨2000, 1, 1, 0, 0⟩, (12, 31, 24, 60)⟩
    ∧ EPlusDt.ltB ⟨⟨2000, 1, 1, 0, 1⟩, (1, 1, 1, 1)⟩ ⟨⟨2000, 1, 1, 0, 0⟩, (12, 31, 24, 60)⟩
      = false :=
  ⟨rfl, rfl, rfl⟩

/-- Claim C1 (amended): every comparison operator on EPlusDt values is decided
solely by comparing their fixed-reference-year standard timestamps; values with
equal standard timestamps compare equal regardless of the stored tuple. In
particular EPlusDt(12,31,24,60) < EPlusDt(1,1,1,1), because the year-2000
projection maps 12-31-24-60 to Jan 1 00:00 of the reference year. -/
theorem C1_ordering_by_standard_timestamps :
    (∀ a b : EPlusDt,
      a.ltB b = dtLtB a.standard_dt b.standard_dt ∧
      a.leB b = dtLeB a.standard_dt b.standard_dt ∧
      a.eqB b = dtEqB a.standard_dt b.standard_dt ∧
      a.neB b = !dtEqB a.standard_dt b.standard_dt ∧
      a.gtB b = dtLtB b.standard_dt a.standard_dt ∧
      a.geB b = dtLeB b.standard_dt a.standard_dt)
    ∧ (∀ a b : EPlusDt, a.standard_dt = b.standard_dt →
      a.eqB b = true ∧ a.leB b = true ∧ a.geB b = true ∧
      a.ltB b = false ∧ a.gtB b = false ∧ a.neB b = false)
    ∧ (EPlusDt.init 1 1 1 1 = .ok ⟨⟨2000, 1, 1, 0, 1⟩, (1, 1, 1, 1)⟩
       ∧ EPlusDt.init 12 31 24 60 = .ok ⟨⟨2000, 1, 1, 0, 0⟩, (12, 31, 24, 60)⟩
       ∧ EPlusDt.ltB ⟨⟨2000, 1, 1, 0, 0⟩, (12, 31, 24, 60)⟩ ⟨⟨2000, 1, 1, 0, 1⟩, (1, 1, 1, 1)⟩
         = true) := by
  refine ⟨fun a b => ⟨rfl, rfl, rfl, rfl, rfl, rfl⟩, fun a b h => ?_, rfl, rfl, rfl⟩
  simp [EPlusDt.eqB, EPlusDt.leB, EPlusDt.geB, EPlusDt.ltB, EPlusDt.gtB, EPlusDt.neB,
    dtEqB, dtLeB, dtLtB, h]

/-- Witness for C1: applying the equal-standard-timestamp part at two concrete
values that share a standard timestamp but differ in their stored tuples. -/
theorem C1_ordering_witness :
    EPlusDt.eqB ⟨⟨2000, 1, 1, 0, 1⟩, (1, 1, 1, 1)⟩ ⟨⟨2000, 1, 1, 0, 1⟩, (9, 9, 9, 9)⟩ = true ∧
    EPlusDt.leB ⟨⟨2000, 1, 1, 0, 1⟩, (1, 1, 1, 1)⟩ ⟨⟨2000, 1, 1, 0, 1⟩, (9, 9, 9, 9)⟩ = true ∧
    EPlusDt.geB ⟨⟨2000, 1, 1, 0, 1⟩, (1, 1, 1, 1)⟩ ⟨⟨2000, 1, 1, 0, 1⟩, (9, 9, 9, 9)⟩ = true ∧
    EPlusDt.ltB ⟨⟨2000, 1, 1, 0, 1⟩, (1, 1, 1, 1)⟩ ⟨⟨2000, 1, 1, 0, 1⟩, (9, 9, 9, 9)⟩ = false ∧
    EPlusDt.gtB ⟨⟨2000, 1, 1, 0, 1⟩, (1, 1, 1, 1)⟩ ⟨⟨2000, 1, 1, 0, 1⟩, (9, 9, 9, 9)⟩ = false ∧
    EPlusDt.neB ⟨⟨2000, 1, 1, 0, 1⟩, (1, 1, 1, 1)⟩ ⟨⟨2000, 1, 1, 0, 1⟩, (9, 9, 9, 9)⟩ = false :=
  C1_ordering_by_standard_timestamps.2.1 _ _ rfl

/-- Claim C6: the EPlusDt stored at (2,29,24,60) reprojects onto the non-leap
year 2019 with the day substituted to 28 (the equivalent instant Mar 1 00:00,
no error), and onto the leap year 2020 unchanged as Feb 29 24:60. -/
theorem C6_leap_day_degradation :
    EPlusDt.init 2 29 24 60 = .ok ⟨⟨2000, 3, 1, 0, 0⟩, (2, 29, 24, 60)⟩
    ∧ EPlusDt.datetime ⟨⟨2000, 3, 1, 0, 0⟩, (2, 29, 24, 60)⟩ 2019 = to_datetime 2019 2 28 24 60
    ∧ EPlusDt.datetime ⟨⟨2000, 3, 1, 0, 0⟩, (2, 29, 24, 60)⟩ 2019 = .ok ⟨2019, 3, 1, 0, 0⟩
    ∧ EPlusDt.datetime ⟨⟨2000, 3, 1, 0, 0⟩, (2, 29, 24, 60)⟩ 2020 = to_datetime 2020 2 29 24 60
    ∧ EPlusDt.datetime ⟨⟨2000, 3, 1, 0, 0⟩, (2, 29, 24, 60)⟩ 2020 = .ok ⟨2020, 3, 1, 0, 0⟩ :=
  ⟨rfl, rfl, rfl, rfl, rfl⟩

/-- Claim C7, failing input: __eq__ compares the sorted items of self with the
sorted items of self (not of other), so two descriptors with equal name, equal
basic type and the same number of tags but different tag contents compare
equal, contradicting the claimed tag-set equality. -/
theorem C7_eq_ignores_tag_contents :
    FieldDescriptor.eqPy ⟨"A", some "f1", [("key", ["a"])]⟩ ⟨"A", some "f1", [("key", ["b"])]⟩
      = true
    ∧ (⟨"A", some "f1", [("key", ["a"])]⟩ : FieldDescriptor)
      ≠ ⟨"A", some "f1", [("key", ["b"])]⟩ :=
  ⟨rfl, by decide⟩

/-- Claim C9, failing input: copy with deep true computes a copy but falls off
the end of the function and returns None, not a FieldDescriptor; the default
call does return the (deep-copied, value-identical) descriptor. -/
theorem C9_copy_deep_returns_none :
    (⟨"A", some "f", []⟩ : FieldDescriptor).copyPy true = none
    ∧ (⟨"A", some "f", []⟩ : FieldDescriptor).copyPy false = some ⟨"A", some "f", []⟩ :=
  ⟨rfl, rfl⟩

/-- Claim C10: a descriptor carrying the type tag with an empty value sequence
and no reference tag fails detailed_type resolution with an out-of-range
sequence lookup (IndexError) instead of returning a detailed kind. -/
theorem C10_empty_type_tag_index_error (fd : FieldDescriptor)
    (h1 : fd.has_tag "reference" = false) (h2 : lookupTag fd.tags_d "type" = some []) :
    fd.detailed_type = .error .indexError := by
  simp only [FieldDescriptor.has_tag] at h1
  simp [FieldDescriptor.detailed_type, FieldDescriptor.has_tag, h1, h2]

/-- Witness for C10 at a descriptor built by add_tag with no value. -/
theorem C10_witness :
    ((⟨"N", none, []⟩ : FieldDescriptor).add_tag "type" none).detailed_type
      = .error .indexError :=
  C10_empty_type_tag_index_error _ rfl rfl

end Oplus

namespace Oplus

/-- Claim C3: detailed_type resolves by the exact first-match precedence
reference, then type (lower-cased first value), then key, then object-list,
then external-list, then alpha for basic type A and real for basic type N;
a descriptor with both reference and key tags resolves to reference. -/
theorem C3_detailed_type_precedence :
    (∀ fd : FieldDescriptor, fd.has_tag "reference" = true →
      fd.detailed_type = .ok "reference")
    ∧ (∀ (fd : FieldDescriptor) (v : String) (l : List String),
      fd.has_tag "reference" = false → lookupTag fd.tags_d "type" = some (v :: l) →
      fd.detailed_type = .ok (pyLowerStr v))
    ∧ (∀ fd : FieldDescriptor, fd.has_tag "reference" = false → fd.has_tag "type" = false →
      fd.has_tag "key" = true → fd.detailed_type = .ok "choice")
    ∧ (∀ fd : FieldDescriptor, fd.has_tag "reference" = false → fd.has_tag "type" = false →
      fd.has_tag "key" = false → fd.has_tag "object-list" = true →
      fd.detailed_type = .ok "object-list")
    ∧ (∀ fd : FieldDescriptor, fd.has_tag "reference" = false → fd.has_tag "type" = false →
      fd.has_tag "key" = false → fd.has_tag "object-list" = false →
      fd.has_tag "external-list" = true → fd.detailed_type = .ok "external-list")
    ∧ (∀ fd : FieldDescriptor, fd.has_tag "reference" = false → fd.has_tag "type" = false →
      fd.has_tag "key" = false → fd.has_tag "object-list" = false →
      fd.has_tag "external-list" = false → fd.basic_type = "A" →
      fd.detailed_type = .ok "alpha")
    ∧ (∀ fd : FieldDescriptor, fd.has_tag "reference" = false → fd.has_tag "type" = false →
      fd.has_tag "key" = false → fd.has_tag "object-list" = false →
      fd.has_tag "external-list" = false → fd.basic_type = "N" →
      fd.detailed_type = .ok "real")
    ∧ (∀ fd : FieldDescriptor, fd.has_tag "reference" = true → fd.has_tag "key" = true →
      fd.detailed_type = .ok "reference") := by
  refine ⟨fun fd h1 => ?_, fun fd v l h1 h2 => ?_, fun fd h1 h2 h3 => ?_,
    fun fd h1 h2 h3 h4 => ?_, fun fd h1 h2 h3 h4 h5 => ?_, fun fd h1 h2 h3 h4 h5 h6 => ?_,
    fun fd h1 h2 h3 h4 h5 h6 => ?_, fun fd h1 h2 => ?_⟩ <;>
    simp_all [FieldDescriptor.detailed_type, FieldDescriptor.has_tag]

/-- Witness for C3: the precedence conjuncts applied at concrete descriptors. -/
theorem C3_detailed_type_witness :
    (⟨"A", none, [("reference", ["r1"]), ("key", ["k1"])]⟩ : FieldDescriptor).detailed_type
      = .ok "reference"
    ∧ (⟨"N", none, [("type", ["Integer"])]⟩ : FieldDescriptor).detailed_type = .ok "integer"
    ∧ (⟨"A", none, [("key", ["k1"])]⟩ : FieldDescriptor).detailed_type = .ok "choice"
    ∧ (⟨"A", none, [("object-list", ["o"])]⟩ : FieldDescriptor).detailed_type = .ok "object-list"
    ∧ (⟨"A", none, [("external-list", ["x"])]⟩ : FieldDescriptor).detailed_type
      = .ok "external-list"
    ∧ (⟨"A", none, [("note", [])]⟩ : FieldDescriptor).detailed_type = .ok "alpha"
    ∧ (⟨"N", none, []⟩ : FieldDescriptor).detailed_type = .ok "real" := by
  refine ⟨C3_detailed_type_precedence.2.2.2.2.2.2.2 _ rfl rfl, ?_,
    C3_detailed_type_precedence.2.2.1 _ rfl rfl rfl,
    C3_detailed_type_precedence.2.2.2.1 _ rfl rfl rfl rfl,
    C3_detailed_type_precedence.2.2.2.2.1 _ rfl rfl rfl rfl rfl,
    C3_detailed_type_precedence.2.2.2.2.2.1 _ rfl rfl rfl rfl rfl rfl,
    C3_detailed_type_precedence.2.2.2.2.2.2.1 _ rfl rfl rfl rfl rfl rfl⟩
  have h := C3_detailed_type_precedence.2.1 ⟨"N", none, [("type", ["Integer"])]⟩ "Integer" []
    rfl rfl
  rw [h]
  rfl

/-- Claim C4, counterexample: a string ending in the dotted expected extension
that names no existing file makes get_string_buffer fail its assert (No file at
given path), it is not treated as literal text content. -/
theorem C4_claim_counterexample :
    get_string_buffer "not_a_real_file.idf" "idf" "utf-8" (fun _ => false)
      = .error .assertionError :=
  rfl

/-- Claim C4 (amended): a string input ending with the dotted expected
extension is required to name an existing file, otherwise get_string_buffer
raises AssertionError; only a string not ending with that suffix is treated as
literal content, yielding a StringIO buffer and no path. -/
theorem C4_string_buffer_decision :
    (∀ (pc ext enc : String) (isfile : String → Bool),
      lastChars pc (ext.length + 1) = "." ++ ext → isfile pc = false →
      get_string_buffer pc ext enc isfile = .error .assertionError)
    ∧ (∀ (pc ext enc : String) (isfile : String → Bool),
      lastChars pc (ext.length + 1) ≠ "." ++ ext →
      get_string_buffer pc ext enc isfile = .ok (.stringBuf pc, none)) := by
  constructor
  · intro pc ext enc isfile h1 h2
    simp [get_string_buffer, h1, h2]
  · intro pc ext enc isfile h1
    simp [get_string_buffer, h1]

/-- Witness for C4 at the spec's example input over an empty filesystem. -/
theorem C4_string_buffer_witness :
    get_string_buffer "not_a_real_file.idf" "idf" "utf-8" (fun _ => false)
      = .error .assertionError
    ∧ get_string_buffer "some literal content" "idf" "utf-8" (fun _ => false)
      = .ok (.stringBuf "some literal content", none) :=
  ⟨C4_string_buffer_decision.1 "not_a_real_file.idf" "idf" "utf-8" (fun _ => false) rfl rfl,
   C4_string_buffer_decision.2 "some literal content" "idf" "utf-8" (fun _ => false)
     (by decide)⟩

/-- Claim C2, counterexample: a numeric descriptor carrying a retaincase tag
does not lower-case the input, so the spelling Autosize misses the sentinel
membership test inside to_num and the cleanup step raises ValueError instead
of succeeding. -/
theorem C2_claim_counterexample :
    (⟨"N", none, [("retaincase", [])]⟩ : FieldDescriptor).cleanup_then_parse "Autosize"
      = .error .valueError :=
  rfl

end Oplus

namespace Oplus

theorem char_toNat_ofNat_of_lt (n : Nat) (h : n < 55296) : (Char.ofNat n).toNat = n := by
  unfold Char.ofNat
  rw [dif_pos (Or.inl h)]
  rfl

theorem pyLowerChar_toNat_of_upper (c : Char) (h : 65 ≤ c.toNat ∧ c.toNat ≤ 90) :
    (pyLowerChar c).toNat = c.toNat + 32 := by
  unfold pyLowerChar
  rw [if_pos h, char_toNat_ofNat_of_lt _ (by omega)]

theorem no_space_in_letter_range (n : Nat) (h1 : 65 ≤ n) (h2 : n ≤ 122) :
    pySpaceCodes.contains n = false := by
  simp [pySpaceCodes, List.contains]
  omega

theorem isPySpace_of_toNat (c : Char) (h1 : 65 ≤ c.toNat) (h2 : c.toNat ≤ 122) :
    isPySpace c = false :=
  no_space_in_letter_range c.toNat h1 h2

theorem lower_letter_source (c : Char) (h1 : 97 ≤ (pyLowerChar c).toNat)
    (h2 : (pyLowerChar c).toNat ≤ 122) : c.toNat < 128 ∧ isPySpace c = false := by
  by_cases h : 65 ≤ c.toNat ∧ c.toNat ≤ 90
  · exact ⟨by omega, isPySpace_of_toNat c (by omega) (by omega)⟩
  · have he : pyLowerChar c = c := if_neg h
    rw [he] at h1 h2
    exact ⟨by omega, isPySpace_of_toNat c (by omega) h2⟩

theorem pyLowerChar_idem (c : Char) : pyLowerChar (pyLowerChar c) = pyLowerChar c := by
  by_cases h : 65 ≤ c.toNat ∧ c.toNat ≤ 90
  · have ht := pyLowerChar_toNat_of_upper c h
    show (if 65 ≤ (pyLowerChar c).toNat ∧ (pyLowerChar c).toNat ≤ 90
        then Char.ofNat ((pyLowerChar c).toNat + 32) else pyLowerChar c) = pyLowerChar c
    rw [if_neg (by omega)]
  · rw [show pyLowerChar c = c from if_neg h, show pyLowerChar c = c from if_neg h]

theorem isPySpace_pyLowerChar (c : Char) : isPySpace (pyLowerChar c) = isPySpace c := by
  by_cases h : 65 ≤ c.toNat ∧ c.toNat ≤ 90
  · have ht := pyLowerChar_toNat_of_upper c h
    rw [show isPySpace (pyLowerChar c) = pySpaceCodes.contains (pyLowerChar c).toNat from rfl,
      ht, no_space_in_letter_range _ (by omega) (by omega),
      isPySpace_of_toNat c (by omega) (by omega)]
  · rw [show pyLowerChar c = c from if_neg h]

theorem pyLowerChar_toNat_lt (c : Char) (h : c.toNat < 128) : (pyLowerChar c).toNat < 128 := by
  by_cases hc : 65 ≤ c.toNat ∧ c.toNat ≤ 90
  · rw [pyLowerChar_toNat_of_upper c hc]
    omega
  · rw [show pyLowerChar c = c from if_neg hc]
    exact h

theorem pyLowerChar_space_char : pyLowerChar ' ' = ' ' := rfl

-- list membership helpers

theorem memOfHead (l : List Char) (c : Char) (h : l.head? = some c) : c ∈ l := by
  cases l with
  | nil => simp at h
  | cons a rest =>
      simp only [List.head?_cons, Option.some.injEq] at h
      rw [← h]
      exact List.mem_cons_self a rest

theorem memOfGetLast (l : List Char) (c : Char) (h : l.getLast? = some c) : c ∈ l := by
  have h2 : ∃ hne, c = l.getLast hne :=
    List.mem_getLast?_eq_getLast (by simp [Option.mem_def, h])
  rcases h2 with ⟨hne, rfl⟩
  exact List.getLast_mem hne

-- strip lemmas

theorem dropWhile_eq_self_of_head (l : List Char)
    (h : ∀ c, l.head? = some c → isPySpace c = false) : l.dropWhile isPySpace = l := by
  cases l with
  | nil => rfl
  | cons a rest =>
      have ha := h a rfl
      simp [List.dropWhile, ha]

theorem dropWhile_head_not (l : List Char) (c : Char)
    (h : (l.dropWhile isPySpace).head? = some c) : isPySpace c = false := by
  induction l with
  | nil => simp at h
  | cons a rest ih =>
      by_cases ha : isPySpace a
      · rw [List.dropWhile_cons_of_pos ha] at h
        exact ih h
      · rw [List.dropWhile_cons_of_neg ha] at h
        simp only [List.head?_cons, Option.some.injEq] at h
        rw [← h]
        simp [ha]

theorem getLast_dropWhile (l : List Char) (h : l.dropWhile isPySpace ≠ []) :
    (l.dropWhile isPySpace).getLast? = l.getLast? := by
  induction l with
  | nil => rfl
  | cons a rest ih =>
      by_cases ha : isPySpace a
      · rw [List.dropWhile_cons_of_pos ha] at h ⊢
        rw [ih h]
        cases hr : rest with
        | nil =>
            rw [hr] at h
            simp at h
        | cons b rb => rw [List.getLast?_cons_cons]
      · rw [List.dropWhile_cons_of_neg ha]

theorem stripped_head (l : List Char) (c : Char) (h : (pyStripList l).head? = some c) :
    isPySpace c = false := by
  unfold pyStripList at h
  rw [List.head?_reverse] at h
  set X := (l.dropWhile isPySpace).reverse.dropWhile isPySpace with hX
  have hne : X ≠ [] := by
    intro hnil
    rw [hnil] at h
    simp at h
  rw [getLast_dropWhile _ hne, List.getLast?_reverse] at h
  exact dropWhile_head_not l c h

theorem stripped_last (l : List Char) (c : Char) (h : (pyStripList l).getLast? = some c) :
    isPySpace c = false := by
  unfold pyStripList at h
  rw [List.getLast?_reverse] at h
  exact dropWhile_head_not _ c h

theorem strip_eq_self (l : List Char)
    (hh : ∀ c, l.head? = some c → isPySpace c = false)
    (hl : ∀ c, l.getLast? = some c → isPySpace c = false) : pyStripList l = l := by
  unfold pyStripList
  rw [dropWhile_eq_self_of_head l hh]
  rw [dropWhile_eq_self_of_head l.reverse (fun c hc => hl c (by rwa [List.head?_reverse] at hc))]
  exact List.reverse_reverse l

end Oplus

namespace Oplus

theorem normTail_cons_cons (a b : Char) (rb : List Char) :
    normTail (a :: b :: rb)
      = ((if isPySpace a then a == ' ' && !isPySpace b else true) && normTail (b :: rb)) :=
  rfl

theorem normTail_last (l : List Char) (h : normTail l = true) :
    ∀ c, l.getLast? = some c → isPySpace c = false := by
  induction l with
  | nil => intro c hc; simp at hc
  | cons a rest ih =>
      cases rest with
      | nil =>
          intro c hc
          simp only [List.getLast?_singleton, Option.some.injEq] at hc
          simp only [normTail, Bool.not_eq_true'] at h
          rw [← hc]
          exact h
      | cons b rb =>
          intro c hc
          rw [List.getLast?_cons_cons] at hc
          rw [normTail_cons_cons, Bool.and_eq_true] at h
          exact ih h.2 c hc

theorem normTail_of_all (l : List Char) (h : ∀ c ∈ l, isPySpace c = false) :
    normTail l = true := by
  induction l with
  | nil => rfl
  | cons a rest ih =>
      have ha := h a (List.mem_cons_self a rest)
      have ihr := ih (fun c hc => h c (List.mem_cons_of_mem _ hc))
      cases rest with
      | nil => simp [normTail, ha]
      | cons b rb => simp [normTail_cons_cons, ha, ihr]

theorem collapse_ne_nil (l : List Char) (h : l ≠ []) : collapseList l ≠ [] := by
  induction l with
  | nil => exact absurd rfl h
  | cons a rest ih =>
      cases rest with
      | nil => by_cases ha : isPySpace a <;> simp [collapseList, ha]
      | cons b rb =>
          by_cases hab : (isPySpace a && isPySpace b) = true
          · rw [show collapseList (a :: b :: rb) = collapseList (b :: rb) from by
              simp [collapseList, hab]]
            exact ih (by simp)
          · simp only [Bool.not_eq_true] at hab
            simp [collapseList, hab]

theorem collapse_head (d : Char) (rest : List Char) (hd : isPySpace d = false) :
    (collapseList (d :: rest)).head? = some d := by
  cases rest with
  | nil => simp [collapseList, hd]
  | cons b rb => simp [collapseList, hd]

theorem collapse_head_prop (l : List Char)
    (hh : ∀ c, l.head? = some c → isPySpace c = false) :
    ∀ c, (collapseList l).head? = some c → isPySpace c = false := by
  cases l with
  | nil => intro c hc; simp [collapseList] at hc
  | cons a rest =>
      intro c hc
      have ha := hh a rfl
      rw [collapse_head a rest ha] at hc
      simp only [Option.some.injEq] at hc
      rw [← hc]
      exact ha

theorem collapse_normTail (l : List Char)
    (hl : ∀ c, l.getLast? = some c → isPySpace c = false) :
    normTail (collapseList l) = true := by
  induction l with
  | nil => rfl
  | cons a rest ih =>
      cases rest with
      | nil =>
          have ha := hl a (by simp)
          simp [collapseList, ha, normTail]
      | cons b rb =>
          have hl2 : ∀ c, (b :: rb).getLast? = some c → isPySpace c = false := by
            intro c hc
            exact hl c (by rw [List.getLast?_cons_cons]; exact hc)
          have ihb := ih hl2
          by_cases ha : isPySpace a
          · by_cases hb : isPySpace b
            · rw [show collapseList (a :: b :: rb) = collapseList (b :: rb) from by
                simp [collapseList, ha, hb]]
              exact ihb
            · have hb' : isPySpace b = false := by simpa using hb
              rw [show collapseList (a :: b :: rb) = ' ' :: collapseList (b :: rb) from by
                simp [collapseList, ha, hb']]
              cases hC : collapseList (b :: rb) with
              | nil => exact absurd hC (collapse_ne_nil _ (by simp))
              | cons f tail =>
                  have hf : f = b := by
                    have := collapse_head b rb hb'
                    rw [hC] at this
                    simp only [List.head?_cons, Option.some.injEq] at this
                    exact this
                  rw [hC] at ihb
                  subst hf
                  simp [normTail_cons_cons, ihb, hb']
          · rw [show collapseList (a :: b :: rb) = a :: collapseList (b :: rb) from by
              simp [collapseList, ha]]
            cases hC : collapseList (b :: rb) with
            | nil => exact absurd hC (collapse_ne_nil _ (by simp))
            | cons f tail =>
                rw [hC] at ihb
                simp [normTail_cons_cons, ihb, ha]

theorem collapse_eq_self (l : List Char) (hn : normTail l = true) : collapseList l = l := by
  induction l with
  | nil => rfl
  | cons a rest ih =>
      cases rest with
      | nil =>
          simp only [normTail, Bool.not_eq_true'] at hn
          simp [collapseList, hn]
      | cons b rb =>
          rw [normTail_cons_cons, Bool.and_eq_true] at hn
          obtain ⟨h1, h2⟩ := hn
          have ihb := ih h2
          by_cases ha : isPySpace a
          · rw [if_pos ha, Bool.and_eq_true] at h1
            obtain ⟨hae, hb⟩ := h1
            have ha' : a = ' ' := by simpa using hae
            simp only [Bool.not_eq_true'] at hb
            subst ha'
            simp [collapseList, ha, hb, ihb]
          · simp [collapseList, ha, ihb]

end Oplus

namespace Oplus

theorem unidecodeChar_ne_nil (c : Char) : unidecodeChar c ≠ [] := by
  unfold unidecodeChar asciiApprox
  split_ifs <;> simp

theorem unidecodeChar_ascii (c : Char) (d : Char) (hd : d ∈ unidecodeChar c) :
    d.toNat < 128 := by
  unfold unidecodeChar asciiApprox at hd
  split_ifs at hd with h1 h2 h3 h4 h5 h6 <;>
    simp only [List.mem_singleton] at hd <;> subst hd
  · exact h1
  all_goals decide

theorem unidecodeChar_not_space (c : Char) (h : isPySpace c = false) (d : Char)
    (hd : d ∈ unidecodeChar c) : isPySpace d = false := by
  unfold unidecodeChar asciiApprox at hd
  split_ifs at hd with h1 h2 h3 h4 h5 h6 <;>
    simp only [List.mem_singleton] at hd <;> subst hd
  · exact h
  all_goals decide

theorem unidecodeChar_space_char : unidecodeChar ' ' = [' '] := rfl

theorem unidecodeList_cons (a : Char) (rest : List Char) :
    unidecodeList (a :: rest) = unidecodeChar a ++ unidecodeList rest := by
  simp [unidecodeList]

theorem unidecodeList_ne_nil (a : Char) (rest : List Char) :
    unidecodeList (a :: rest) ≠ [] := by
  rw [unidecodeList_cons]
  intro hcontra
  exact unidecodeChar_ne_nil a (List.append_eq_nil.mp hcontra).1

theorem unidecode_ascii (l : List Char) (d : Char) (hd : d ∈ unidecodeList l) :
    d.toNat < 128 := by
  unfold unidecodeList at hd
  rw [List.mem_flatten] at hd
  obtain ⟨B, hB, hdB⟩ := hd
  rw [List.mem_map] at hB
  obtain ⟨c, hc, rfl⟩ := hB
  exact unidecodeChar_ascii c d hdB

theorem unidecode_eq_self (l : List Char) (h : ∀ c ∈ l, c.toNat < 128) :
    unidecodeList l = l := by
  induction l with
  | nil => rfl
  | cons a rest ih =>
      rw [unidecodeList_cons, show unidecodeChar a = [a] from
        if_pos (h a (List.mem_cons_self a rest)),
        ih (fun c hc => h c (List.mem_cons_of_mem _ hc))]
      rfl

theorem normTail_append (B t : List Char) (hB : ∀ c ∈ B, isPySpace c = false)
    (ht : normTail t = true) : normTail (B ++ t) = true := by
  induction B with
  | nil => simpa
  | cons b B' ih =>
      have hb := hB b (List.mem_cons_self b B')
      have ihb := ih (fun c hc => hB c (List.mem_cons_of_mem _ hc))
      rw [List.cons_append]
      cases hBT : B' ++ t with
      | nil => simp [normTail, hb]
      | cons e rest =>
          rw [hBT] at ihb
          simp [normTail_cons_cons, hb, ihb]

theorem unidecode_head (l : List Char) (hh : ∀ c, l.head? = some c → isPySpace c = false) :
    ∀ c, (unidecodeList l).head? = some c → isPySpace c = false := by
  cases l with
  | nil => intro c hc; simp [unidecodeList] at hc
  | cons a rest =>
      intro c hc
      have ha := hh a rfl
      rw [unidecodeList_cons] at hc
      cases hA : unidecodeChar a with
      | nil => exact absurd hA (unidecodeChar_ne_nil a)
      | cons x xs =>
          rw [hA] at hc
          simp only [List.cons_append, List.head?_cons, Option.some.injEq] at hc
          rw [← hc]
          exact unidecodeChar_not_space a ha x (by rw [hA]; exact List.mem_cons_self x xs)

theorem unidecode_normTail (l : List Char) (hn : normTail l = true) :
    normTail (unidecodeList l) = true := by
  induction l with
  | nil => rfl
  | cons a rest ih =>
      cases rest with
      | nil =>
          simp only [normTail, Bool.not_eq_true'] at hn
          rw [unidecodeList_cons]
          exact normTail_append _ _ (fun c hc => unidecodeChar_not_space a hn c hc) rfl
      | cons b rb =>
          rw [normTail_cons_cons, Bool.and_eq_true] at hn
          obtain ⟨h1, h2⟩ := hn
          have ihb := ih h2
          by_cases ha : isPySpace a
          · rw [if_pos ha, Bool.and_eq_true] at h1
            obtain ⟨hae, hb⟩ := h1
            have ha' : a = ' ' := by simpa using hae
            simp only [Bool.not_eq_true'] at hb
            subst ha'
            rw [unidecodeList_cons, unidecodeChar_space_char]
            have hu := unidecode_head (b :: rb) (fun c hc => by
              simp only [List.head?_cons, Option.some.injEq] at hc
              rw [← hc]
              exact hb)
            cases hU : unidecodeList (b :: rb) with
            | nil => exact absurd hU (unidecodeList_ne_nil b rb)
            | cons f tail =>
                have hf : isPySpace f = false := hu f (by rw [hU]; rfl)
                rw [hU] at ihb
                simp [normTail_cons_cons, hf, ihb]
          · have ha' : isPySpace a = false := by simpa using ha
            rw [unidecodeList_cons]
            exact normTail_append _ _ (fun c hc => unidecodeChar_not_space a ha' c hc) ihb

theorem pyLower_head (l : List Char) (hh : ∀ c, l.head? = some c → isPySpace c = false) :
    ∀ c, (pyLowerList l).head? = some c → isPySpace c = false := by
  cases l with
  | nil => intro c hc; simp [pyLowerList] at hc
  | cons a rest =>
      intro c hc
      simp only [pyLowerList, List.map_cons, List.head?_cons, Option.some.injEq] at hc
      rw [← hc, isPySpace_pyLowerChar]
      exact hh a rfl

theorem pyLower_normTail (l : List Char) (hn : normTail l = true) :
    normTail (pyLowerList l) = true := by
  induction l with
  | nil => rfl
  | cons a rest ih =>
      cases rest with
      | nil =>
          simp only [normTail, Bool.not_eq_true'] at hn
          simp [pyLowerList, normTail, isPySpace_pyLowerChar, hn]
      | cons b rb =>
          rw [normTail_cons_cons, Bool.and_eq_true] at hn
          obtain ⟨h1, h2⟩ := hn
          have ihb := ih h2
          have hmap : pyLowerList (a :: b :: rb)
              = pyLowerChar a :: pyLowerChar b :: pyLowerList rb := rfl
          have ihb' : normTail (pyLowerChar b :: pyLowerList rb) = true := ihb
          by_cases ha : isPySpace a
          · rw [if_pos ha, Bool.and_eq_true] at h1
            obtain ⟨hae, hb⟩ := h1
            have ha' : a = ' ' := by simpa using hae
            simp only [Bool.not_eq_true'] at hb
            subst ha'
            rw [hmap, normTail_cons_cons]
            simp [pyLowerChar_space_char, isPySpace_pyLowerChar, hb, ihb']
          · have ha' : isPySpace a = false := by simpa using ha
            rw [hmap, normTail_cons_cons]
            simp [isPySpace_pyLowerChar, ha', ihb']

theorem pyLower_idem_list (l : List Char) : pyLowerList (pyLowerList l) = pyLowerList l := by
  simp only [pyLowerList, List.map_map]
  exact List.map_congr_left (fun a _ => pyLowerChar_idem a)

theorem pyLower_ascii (l : List Char) (h : ∀ c ∈ l, c.toNat < 128) :
    ∀ d ∈ pyLowerList l, d.toNat < 128 := by
  intro d hd
  simp only [pyLowerList, List.mem_map] at hd
  obtain ⟨c, hc, rfl⟩ := hd
  exact pyLowerChar_toNat_lt c (h c hc)

theorem normalized_fixed (l : List Char) :
    pyStripList (pyLowerList (unidecodeList (collapseList (pyStripList l))))
      = pyLowerList (unidecodeList (collapseList (pyStripList l)))
    ∧ collapseList (pyLowerList (unidecodeList (collapseList (pyStripList l))))
      = pyLowerList (unidecodeList (collapseList (pyStripList l)))
    ∧ unidecodeList (pyLowerList (unidecodeList (collapseList (pyStripList l))))
      = pyLowerList (unidecodeList (collapseList (pyStripList l)))
    ∧ pyLowerList (pyLowerList (unidecodeList (collapseList (pyStripList l))))
      = pyLowerList (unidecodeList (collapseList (pyStripList l))) := by
  have hu_h : ∀ c, (pyStripList l).head? = some c → isPySpace c = false :=
    fun c hc => stripped_head l c hc
  have hu_l : ∀ c, (pyStripList l).getLast? = some c → isPySpace c = false :=
    fun c hc => stripped_last l c hc
  have hv_n : normTail (collapseList (pyStripList l)) = true := collapse_normTail _ hu_l
  have hv_h := collapse_head_prop _ hu_h
  have hw_n : normTail (unidecodeList (collapseList (pyStripList l))) = true :=
    unidecode_normTail _ hv_n
  have hw_h := unidecode_head _ hv_h
  have hw_a : ∀ c ∈ unidecodeList (collapseList (pyStripList l)), c.toNat < 128 :=
    fun c hc => unidecode_ascii _ c hc
  have hr_n : normTail (pyLowerList (unidecodeList (collapseList (pyStripList l)))) = true :=
    pyLower_normTail _ hw_n
  have hr_h := pyLower_head _ hw_h
  have hr_a := pyLower_ascii _ hw_a
  exact ⟨strip_eq_self _ hr_h (normTail_last _ hr_n), collapse_eq_self _ hr_n,
    unidecode_eq_self _ hr_a, pyLower_idem_list _⟩

end Oplus

namespace Oplus

theorem cleanup_fixed_point (fd : FieldDescriptor) (X : List Char)
    (hrc : fd.has_tag "retaincase" = false)
    (h1 : pyStripList X = X) (h2 : collapseList X = X) (h3 : unidecodeList X = X)
    (h4 : pyLowerList X = X)
    (hlen : ¬((⟨X⟩ : String).length > 100))
    (hnum : ((⟨X⟩ : String) ≠ "" ∧ fd.basic_type = "N") → ∃ v, to_num ⟨X⟩ = .ok v) :
    fd.cleanup_and_check_raw_value (some ⟨X⟩) = .ok ⟨X⟩ := by
  simp only [FieldDescriptor.cleanup_and_check_raw_value, Option.getD_some, hrc,
    Bool.false_eq_true, if_false]
  rw [h1, h2, h3, h4, if_neg hlen]
  by_cases hc : (⟨X⟩ : String) ≠ "" ∧ fd.basic_type = "N"
  · rw [if_pos hc]
    obtain ⟨v, hv⟩ := hnum hc
    rw [hv]
  · rw [if_neg hc]

/-- Claim C8: for descriptors without a retaincase tag, cleanup_and_check_raw_value
is idempotent on its own outputs, and its output is always fully lower-cased. -/
theorem C8_cleanup_idempotent (fd : FieldDescriptor) (s r : String)
    (hrc : fd.has_tag "retaincase" = false)
    (hcl : fd.cleanup_and_check_raw_value (some s) = .ok r) :
    fd.cleanup_and_check_raw_value (some r) = .ok r ∧ pyLowerStr r = r := by
  obtain ⟨hfix1, hfix2, hfix3, hfix4⟩ := normalized_fixed s.data
  simp only [FieldDescriptor.cleanup_and_check_raw_value, Option.getD_some, hrc,
    Bool.false_eq_true, if_false] at hcl
  by_cases hlen :
      (⟨pyLowerList (unidecodeList (collapseList (pyStripList s.data)))⟩ : String).length > 100
  · rw [if_pos hlen] at hcl
    exact absurd hcl (by simp)
  · rw [if_neg hlen] at hcl
    have hlower : pyLowerStr
        (⟨pyLowerList (unidecodeList (collapseList (pyStripList s.data)))⟩ : String)
        = ⟨pyLowerList (unidecodeList (collapseList (pyStripList s.data)))⟩ := by
      simp only [pyLowerStr]
      rw [hfix4]
    by_cases hnum :
        (⟨pyLowerList (unidecodeList (collapseList (pyStripList s.data)))⟩ : String) ≠ ""
        ∧ fd.basic_type = "N"
    · rw [if_pos hnum] at hcl
      cases htn : to_num
          ⟨pyLowerList (unidecodeList (collapseList (pyStripList s.data)))⟩ with
      | error e =>
          rw [htn] at hcl
          exact absurd hcl (by simp)
      | ok v =>
          rw [htn] at hcl
          simp only [Except.ok.injEq] at hcl
          subst hcl
          exact ⟨cleanup_fixed_point fd _ hrc hfix1 hfix2 hfix3 hfix4 hlen
            (fun _ => ⟨v, htn⟩), hlower⟩
    · rw [if_neg hnum] at hcl
      simp only [Except.ok.injEq] at hcl
      subst hcl
      exact ⟨cleanup_fixed_point fd _ hrc hfix1 hfix2 hfix3 hfix4 hlen
        (fun hcon => absurd hcon hnum), hlower⟩

/-- Witness for C8 at a concrete descriptor and input. -/
theorem C8_cleanup_idempotent_witness :
    (⟨"A", none, []⟩ : FieldDescriptor).cleanup_and_check_raw_value (some "pony club")
      = .ok "pony club"
    ∧ pyLowerStr "pony club" = "pony club" :=
  C8_cleanup_idempotent ⟨"A", none, []⟩ "  PONY   Club " "pony club" rfl rfl

end Oplus

namespace Oplus

/-- Claim C2 (amended): for numeric field descriptors without a retaincase tag,
any spelling of the two sentinel tokens passes cleanup and basic_parse and
comes out as the lower-cased token string, never as a number. -/
theorem C2_sentinel_passthrough (fd : FieldDescriptor) (s : String)
    (hbt : fd.basic_type = "N") (hrc : fd.has_tag "retaincase" = false)
    (hs : pyLowerStr s = "autocalculate" ∨ pyLowerStr s = "autosize") :
    fd.cleanup_then_parse s = .ok (.pystr (pyLowerStr s)) := by
  have hchars : ∀ c ∈ s.data, c.toNat < 128 ∧ isPySpace c = false := by
    intro c hc
    have hmem : pyLowerChar c ∈ pyLowerList s.data := List.mem_map_of_mem _ hc
    have hrange : 97 ≤ (pyLowerChar c).toNat ∧ (pyLowerChar c).toNat ≤ 122 := by
      rcases hs with h | h
      · have hdata : pyLowerList s.data = ("autocalculate" : String).data :=
          congrArg String.data h
        rw [hdata] at hmem
        have hall : ∀ d ∈ ("autocalculate" : String).data,
            97 ≤ d.toNat ∧ d.toNat ≤ 122 := by decide
        exact hall _ hmem
      · have hdata : pyLowerList s.data = ("autosize" : String).data :=
          congrArg String.data h
        rw [hdata] at hmem
        have hall : ∀ d ∈ ("autosize" : String).data,
            97 ≤ d.toNat ∧ d.toNat ≤ 122 := by decide
        exact hall _ hmem
    exact lower_letter_source c hrange.1 hrange.2
  have hstrip : pyStripList s.data = s.data :=
    strip_eq_self s.data (fun c hc => (hchars c (memOfHead _ c hc)).2)
      (fun c hc => (hchars c (memOfGetLast _ c hc)).2)
  have hcoll : collapseList s.data = s.data :=
    collapse_eq_self s.data (normTail_of_all s.data (fun c hc => (hchars c hc).2))
  have huni : unidecodeList s.data = s.data :=
    unidecode_eq_self s.data (fun c hc => (hchars c hc).1)
  have hclean : fd.cleanup_and_check_raw_value (some s) = .ok (pyLowerStr s) := by
    simp only [FieldDescriptor.cleanup_and_check_raw_value, Option.getD_some, hrc,
      Bool.false_eq_true, if_false]
    rw [hstrip, hcoll, huni]
    rcases hs with h | h
    · have hdata : pyLowerList s.data = ("autocalculate" : String).data :=
        congrArg String.data h
      rw [hdata, h, hbt]
      rfl
    · have hdata : pyLowerList s.data = ("autosize" : String).data :=
        congrArg String.data h
      rw [hdata, h, hbt]
      rfl
  unfold FieldDescriptor.cleanup_then_parse
  rw [hclean]
  rcases hs with h | h <;> rw [h] <;> simp only [FieldDescriptor.basic_parse, hbt] <;> rfl

/-- Witness for C2 at a mixed-case spelling of each sentinel over a plain
numeric descriptor. -/
theorem C2_sentinel_witness :
    (⟨"N", none, []⟩ : FieldDescriptor).cleanup_then_parse "AutoCalculate"
      = .ok (.pystr "autocalculate")
    ∧ (⟨"N", none, []⟩ : FieldDescriptor).cleanup_then_parse "AUTOSIZE"
      = .ok (.pystr "autosize") := by
  constructor
  · have h := C2_sentinel_passthrough ⟨"N", none, []⟩ "AutoCalculate" rfl rfl (Or.inl rfl)
    rw [h]
    rfl
  · have h := C2_sentinel_passthrough ⟨"N", none, []⟩ "AUTOSIZE" rfl rfl (Or.inr rfl)
    rw [h]
    rfl

end Oplus

namespace Oplus

theorem mkDatetime_ok (y m d h mi : Int) (hv : 1 ≤ y ∧ y ≤ 9999 ∧ 1 ≤ m ∧ m ≤ 12 ∧ 1 ≤ d
    ∧ d ≤ daysInMonth y m ∧ 0 ≤ h ∧ h ≤ 23 ∧ 0 ≤ mi ∧ mi ≤ 59) :
    mkDatetime y m d h mi = .ok ⟨y, m, d, h, mi⟩ := if_pos hv

theorem except_bind_ok {α β : Type} (a : α) (f : α → Except PyErr β) :
    (Except.ok a : Except PyErr α).bind f = f a := rfl

theorem wrapLeapErr_ok (m d : Int) (x : Datetime) : wrapLeapErr m d (.ok x) = .ok x := rfl

theorem replaceYear_mk (y2 y m d h mi : Int) :
    replaceYear ⟨y, m, d, h, mi⟩ y2 = mkDatetime y2 m d h mi := rfl

theorem one_le_daysInMonth (y m : Int) : 1 ≤ daysInMonth y m := by
  unfold daysInMonth
  split_ifs <;> omega

theorem daysInMonth_le_31 (y m : Int) : daysInMonth y m ≤ 31 := by
  unfold daysInMonth
  split_ifs <;> omega

theorem daysInMonth_le_2000 (y m : Int) : daysInMonth y m ≤ daysInMonth 2000 m := by
  unfold daysInMonth
  by_cases h2 : m = 2
  · rw [if_pos h2, if_pos h2, show isleap 2000 = true from rfl, if_pos rfl]
    by_cases hl : isleap y = true
    · rw [if_pos hl]
    · rw [if_neg hl]
      omega
  · rw [if_neg h2, if_neg h2]

theorem succHour_mk_hour (y m d h mi : Int) (hlt : h < 23) :
    succHour ⟨y, m, d, h, mi⟩ = ⟨y, m, d, h + 1, mi⟩ := if_pos hlt

theorem succHour_mk_day (y m d h mi : Int) (hge : ¬ h < 23) (hd : d < daysInMonth y m) :
    succHour ⟨y, m, d, h, mi⟩ = ⟨y, m, d + 1, 0, mi⟩ := by
  unfold succHour
  rw [if_neg hge, if_pos hd]

theorem succHour_mk_month (y m d h mi : Int) (hge : ¬ h < 23)
    (hd : ¬ d < daysInMonth y m) (hm : m < 12) :
    succHour ⟨y, m, d, h, mi⟩ = ⟨y, m + 1, 1, 0, mi⟩ := by
  unfold succHour
  rw [if_neg hge, if_neg hd, if_pos hm]

theorem succHour_mk_year (y m d h mi : Int) (hge : ¬ h < 23)
    (hd : ¬ d < daysInMonth y m) (hm : ¬ m < 12) :
    succHour ⟨y, m, d, h, mi⟩ = ⟨y + 1, 1, 1, 0, mi⟩ := by
  unfold succHour
  rw [if_neg hge, if_neg hd, if_neg hm]

theorem predHour_mk_hour (y m d h mi : Int) (hpos : 0 < h) :
    predHour ⟨y, m, d, h, mi⟩ = ⟨y, m, d, h - 1, mi⟩ := if_pos hpos

theorem predHour_mk_day (y m d h mi : Int) (h0 : ¬ 0 < h) (hd : 1 < d) :
    predHour ⟨y, m, d, h, mi⟩ = ⟨y, m, d - 1, 23, mi⟩ := by
  unfold predHour
  rw [if_neg h0, if_pos hd]

theorem predHour_mk_month (y m d h mi : Int) (h0 : ¬ 0 < h) (hd : ¬ 1 < d) (hm : 1 < m) :
    predHour ⟨y, m, d, h, mi⟩ = ⟨y, m - 1, daysInMonth y (m - 1), 23, mi⟩ := by
  unfold predHour
  rw [if_neg h0, if_neg hd, if_pos hm]

theorem predHour_mk_year (y m d h mi : Int) (h0 : ¬ 0 < h) (hd : ¬ 1 < d) (hm : ¬ 1 < m) :
    predHour ⟨y, m, d, h, mi⟩ = ⟨y - 1, 12, 31, 23, mi⟩ := by
  unfold predHour
  rw [if_neg h0, if_neg hd, if_neg hm]

theorem to_datetime_2000_lt60 (m d h mi : Int) (h1 : 1 ≤ m) (h2 : m ≤ 12) (h3 : 1 ≤ d)
    (h4 : d ≤ daysInMonth 2000 m) (h5 : 1 ≤ h) (h6 : h ≤ 24) (h7 : 0 ≤ mi) (h8 : mi ≤ 59) :
    to_datetime 2000 m d h mi = .ok ⟨2000, m, d, h - 1, mi⟩ := by
  have hne : ¬ (mi = 60) := by omega
  unfold to_datetime
  rw [if_neg hne, mkDatetime_ok 2000 m d (h - 1) mi
    ⟨by omega, by omega, h1, h2, h3, h4, by omega, by omega, h7, h8⟩,
    except_bind_ok, if_neg hne, replaceYear_mk, mkDatetime_ok 2000 m d (h - 1) mi
    ⟨by omega, by omega, h1, h2, h3, h4, by omega, by omega, h7, h8⟩, wrapLeapErr_ok]

theorem to_datetime_2000_60_le23 (m d h : Int) (h1 : 1 ≤ m) (h2 : m ≤ 12) (h3 : 1 ≤ d)
    (h4 : d ≤ daysInMonth 2000 m) (h5 : 1 ≤ h) (h6 : h ≤ 23) :
    to_datetime 2000 m d h 60 = .ok ⟨2000, m, d, h, 0⟩ := by
  unfold to_datetime
  rw [if_pos rfl, mkDatetime_ok 2000 m d (h - 1) 0
    ⟨by omega, by omega, h1, h2, h3, h4, by omega, by omega, by omega, by omega⟩,
    except_bind_ok, if_pos rfl, succHour_mk_hour 2000 m d (h - 1) 0 (by omega),
    replaceYear_mk, mkDatetime_ok 2000 m d (h - 1 + 1) 0
    ⟨by omega, by omega, h1, h2, h3, h4, by omega, by omega, by omega, by omega⟩,
    wrapLeapErr_ok, show h - 1 + 1 = h from by omega]

theorem to_datetime_2000_60_h24_mid (m d : Int) (h1 : 1 ≤ m) (h2 : m ≤ 12) (h3 : 1 ≤ d)
    (hd : d < daysInMonth 2000 m) :
    to_datetime 2000 m d 24 60 = .ok ⟨2000, m, d + 1, 0, 0⟩ := by
  unfold to_datetime
  rw [if_pos rfl, mkDatetime_ok 2000 m d (24 - 1) 0
    ⟨by omega, by omega, h1, h2, h3, by omega, by omega, by omega, by omega, by omega⟩,
    except_bind_ok, if_pos rfl, succHour_mk_day 2000 m d (24 - 1) 0 (by omega) hd,
    replaceYear_mk, mkDatetime_ok 2000 m (d + 1) 0 0
    ⟨by omega, by omega, h1, h2, by omega, by omega, by omega, by omega, by omega, by omega⟩,
    wrapLeapErr_ok]

theorem to_datetime_2000_60_h24_endmonth (m d : Int) (h1 : 1 ≤ m) (h3 : 1 ≤ d)
    (h4 : d ≤ daysInMonth 2000 m) (hd : ¬ d < daysInMonth 2000 m) (hm : m < 12) :
    to_datetime 2000 m d 24 60 = .ok ⟨2000, m + 1, 1, 0, 0⟩ := by
  unfold to_datetime
  rw [if_pos rfl, mkDatetime_ok 2000 m d (24 - 1) 0
    ⟨by omega, by omega, h1, by omega, h3, h4, by omega, by omega, by omega, by omega⟩,
    except_bind_ok, if_pos rfl, succHour_mk_month 2000 m d (24 - 1) 0 (by omega) hd hm,
    replaceYear_mk, mkDatetime_ok 2000 (m + 1) 1 0 0
    ⟨by omega, by omega, by omega, by omega, by omega,
      one_le_daysInMonth 2000 (m + 1), by omega, by omega, by omega, by omega⟩,
    wrapLeapErr_ok]

theorem to_datetime_2000_60_h24_endyear (d : Int) (h3 : 1 ≤ d)
    (h4 : d ≤ daysInMonth 2000 12) (hd : ¬ d < daysInMonth 2000 12) :
    to_datetime 2000 12 d 24 60 = .ok ⟨2000, 1, 1, 0, 0⟩ := by
  unfold to_datetime
  rw [if_pos rfl, mkDatetime_ok 2000 12 d (24 - 1) 0
    ⟨by omega, by omega, by omega, by omega, h3, h4, by omega, by omega, by omega,
      by omega⟩,
    except_bind_ok, if_pos rfl,
    succHour_mk_year 2000 12 d (24 - 1) 0 (by omega) hd (by omega),
    replaceYear_mk, mkDatetime_ok 2000 1 1 0 0
    ⟨by omega, by omega, by omega, by omega, by omega, one_le_daysInMonth 2000 1,
      by omega, by omega, by omega, by omega⟩,
    wrapLeapErr_ok]

end Oplus

namespace Oplus

theorem except_map_ok {α β : Type} (a : α) (f : α → β) :
    (Except.ok a : Except PyErr α).map f = .ok (f a) := rfl

theorem init_eval_min0 (m d h mi y2 M D H : Int)
    (htd : to_datetime 2000 m d h mi = .ok ⟨y2, M, D, H, 0⟩) :
    (EPlusDt.init m d h mi).map EPlusDt.value
      = .ok ((predHour ⟨y2, M, D, H, 0⟩).month, (predHour ⟨y2, M, D, H, 0⟩).day,
        (predHour ⟨y2, M, D, H, 0⟩).hour + 1, 60) := by
  unfold EPlusDt.init
  rw [htd, except_map_ok, except_map_ok]
  rfl

theorem init_eval_minpos (m d h mi y2 M D H Mi : Int) (hne : ¬ (Mi = 0))
    (htd : to_datetime 2000 m d h mi = .ok ⟨y2, M, D, H, Mi⟩) :
    (EPlusDt.init m d h mi).map EPlusDt.value = .ok (M, D, H + 1, Mi) := by
  unfold EPlusDt.init
  rw [htd, except_map_ok, except_map_ok]
  simp only [if_neg hne]

theorem init_roundtrip (m d h mi : Int) (h1 : 1 ≤ m) (h2 : m ≤ 12) (h3 : 1 ≤ d)
    (h4 : d ≤ daysInMonth 2000 m) (h5 : 1 ≤ h) (h6 : h ≤ 24) (h7 : 1 ≤ mi) (h8 : mi ≤ 60) :
    (EPlusDt.init m d h mi).map EPlusDt.value = .ok (m, d, h, mi) := by
  by_cases h60 : mi = 60
  · subst h60
    by_cases hh : h ≤ 23
    · rw [init_eval_min0 m d h 60 2000 m d h
        (to_datetime_2000_60_le23 m d h h1 h2 h3 h4 h5 hh),
        predHour_mk_hour 2000 m d h 0 (by omega)]
      have harith : h - 1 + 1 = h := by omega
      simp [harith]
    · have hh24 : h = 24 := by omega
      subst hh24
      by_cases hd : d < daysInMonth 2000 m
      · rw [init_eval_min0 m d 24 60 2000 m (d + 1) 0
          (to_datetime_2000_60_h24_mid m d h1 h2 h3 hd),
          predHour_mk_day 2000 m (d + 1) 0 0 (by omega) (by omega)]
        have harith : d + 1 - 1 = d := by omega
        simp [harith]
      · by_cases hm : m < 12
        · rw [init_eval_min0 m d 24 60 2000 (m + 1) 1 0
            (to_datetime_2000_60_h24_endmonth m d h1 h3 h4 hd hm),
            predHour_mk_month 2000 (m + 1) 1 0 0 (by omega) (by omega) (by omega)]
          have harith : m + 1 - 1 = m := by omega
          have hdm : daysInMonth 2000 m = d := by omega
          rw [harith, hdm]
          simp
        · have hm12 : m = 12 := by omega
          subst hm12
          have hd31 : d = 31 := by
            have hday : daysInMonth 2000 12 = 31 := rfl
            omega
          subst hd31
          rw [init_eval_min0 12 31 24 60 2000 1 1 0
            (to_datetime_2000_60_h24_endyear 31 (by omega) (by decide) (by decide)),
            predHour_mk_year 2000 1 1 0 0 (by omega) (by omega) (by omega)]
          simp
  · have h59 : mi ≤ 59 := by omega
    rw [init_eval_minpos m d h mi 2000 m d (h - 1) mi (by omega)
      (to_datetime_2000_lt60 m d h mi h1 h2 h3 h4 h5 h6 (by omega) h59)]
    have harith : h - 1 + 1 = h := by omega
    rw [harith]

theorem from_datetime_min0 (y m d h : Int) (_hy1 : 1 ≤ y) (_hy2 : y ≤ 9999)
    (h1 : 1 ≤ m) (h2 : m ≤ 12) (h3 : 1 ≤ d) (h4 : d ≤ daysInMonth y m)
    (h5 : 1 ≤ h) (h6 : h ≤ 23) :
    (EPlusDt.from_datetime ⟨y, m, d, h, 0⟩).map EPlusDt.value = .ok (m, d, h, 60) := by
  have hfd : EPlusDt.from_datetime ⟨y, m, d, h, 0⟩ = EPlusDt.init m d (h - 1 + 1) 60 := by
    unfold EPlusDt.from_datetime
    rw [predHour_mk_hour y m d h 0 (by omega)]
    rfl
  rw [hfd, show h - 1 + 1 = h from by omega]
  exact init_roundtrip m d h 60 h1 h2 h3 (le_trans h4 (daysInMonth_le_2000 y m)) h5
    (by omega) (by omega) (by omega)

/-- Claim C5: constructing an EPlusDt from explicit components (any valid
month/day of the reference leap year, hour in 1..24, minute in 1..60) and
reading the stored components back yields the originals; and constructing from
a conventional timestamp with minute 0 stores minute 60 of the previous hour,
keeping the same stored hour index (conventional 5:00 becomes hour 5,
minute 60, not hour 6). -/
theorem C5_roundtrip :
    (∀ m d h mi : Int, 1 ≤ m → m ≤ 12 → 1 ≤ d → d ≤ daysInMonth 2000 m → 1 ≤ h → h ≤ 24 →
      1 ≤ mi → mi ≤ 60 → (EPlusDt.init m d h mi).map EPlusDt.value = .ok (m, d, h, mi))
    ∧ (∀ y m d h : Int, 1 ≤ y → y ≤ 9999 → 1 ≤ m → m ≤ 12 → 1 ≤ d → d ≤ daysInMonth y m →
      1 ≤ h → h ≤ 23 →
      (EPlusDt.from_datetime ⟨y, m, d, h, 0⟩).map EPlusDt.value = .ok (m, d, h, 60)) :=
  ⟨fun m d h mi h1 h2 h3 h4 h5 h6 h7 h8 => init_roundtrip m d h mi h1 h2 h3 h4 h5 h6 h7 h8,
   fun y m d h hy1 hy2 h1 h2 h3 h4 h5 h6 =>
     from_datetime_min0 y m d h hy1 hy2 h1 h2 h3 h4 h5 h6⟩

/-- Witness for C5 at concrete components, including the end-of-year instant
and the spec's hour-5 example. -/
theorem C5_roundtrip_witness :
    (EPlusDt.init 6 15 5 30).map EPlusDt.value = .ok (6, 15, 5, 30)
    ∧ (EPlusDt.init 12 31 24 60).map EPlusDt.value = .ok (12, 31, 24, 60)
    ∧ (EPlusDt.from_datetime ⟨2000, 1, 15, 5, 0⟩).map EPlusDt.value = .ok (1, 15, 5, 60) :=
  ⟨C5_roundtrip.1 6 15 5 30 (by decide) (by decide) (by decide) (by decide) (by decide)
      (by decide) (by decide) (by decide),
   C5_roundtrip.1 12 31 24 60 (by decide) (by decide) (by decide) (by decide) (by decide)
      (by decide) (by decide) (by decide),
   C5_roundtrip.2 2000 1 15 5 (by decide) (by decide) (by decide) (by decide) (by decide)
      (by decide) (by decide) (by decide)⟩

end Oplus
